import Mathlib

/-!
# ComPrinter (ConsoleApplication2.cpp): serial device scan, link set-up and frame parser

A shallow embedding of `main` of `src/ConsoleApplication2.cpp`:

* the COM port scan (lines 181-212),
* the DCB set-up (lines 219-246),
* the raw read loop (lines 290-302),
* the framed-mode state machine (lines 308-343).

Bytes read into `char c` are represented by their code (a natural number); the
C string held in `message_buffer` is the list of its characters before the
terminating NUL.  The `int` variables `n` and `id` are integers; the updates of
`n` (digit accumulation, decrement of the scan counter) are reduced to the
32-bit two's-complement range.
-/

namespace ComPrinter

/-! ## Framed-mode state machine -/

/-- The buffer size, `#define MESSAGE_LENGTH 100`. -/
def MESSAGE_LENGTH : Nat := 100

/-- Reduction of an integer to the range of a 32-bit two's-complement `int`. -/
def wrap32 (x : Int) : Int := (x + 2147483648) % 4294967296 - 2147483648

/-- The variables of the decode loop: `state`, `n` and `message_buffer`. -/
structure Parser where
  state : Int
  n : Int
  message_buffer : List Nat
deriving DecidableEq, Repr

/-- The call `strncat(message_buffer, &c, 1)`: at most one character of the
string starting at `c` is appended, which is nothing when `c` is NUL. -/
def strncat1 (message_buffer : List Nat) (c : Nat) : List Nat :=
  if c = 0 then message_buffer else message_buffer ++ [c]

/-- One iteration of the framed loop (lines 314-342) on a byte `c` that was
read; the second component is the line printed by state 4, if any.
Character codes: `'<'` 60, `'>'` 62, `'@'` 64, `'0'` 48, `'9'` 57. -/
def step (id : Int) (p : Parser) (c : Nat) : Parser × Option (List Nat) :=
  if p.state = 1 then
    (⟨if c = 60 then 2 else 1, 0, []⟩, none)
  else if p.state = 2 then
    if 48 ≤ c ∧ c ≤ 57 then
      (⟨2, wrap32 (wrap32 (10 * p.n) + ((c : Int) - 48)), p.message_buffer⟩, none)
    else if c = 64 then (⟨3, p.n, p.message_buffer⟩, none)
    else (⟨1, p.n, p.message_buffer⟩, none)
  else if p.state = 3 then
    let q : Parser :=
      if p.n ≠ id then ⟨1, p.n, p.message_buffer⟩
      else if c ≠ 62 then ⟨3, p.n, strncat1 p.message_buffer c⟩
      else ⟨4, p.n, p.message_buffer⟩
    (if q.message_buffer.length ≥ MESSAGE_LENGTH - 1 then ⟨4, q.n, q.message_buffer⟩ else q,
      none)
  else if p.state = 4 then
    (⟨1, p.n, p.message_buffer⟩, some p.message_buffer)
  else (⟨1, p.n, p.message_buffer⟩, none)

/-- The framed loop (lines 308-343) over a finite sequence of `ReadFile`
results: `none` is a read that returned no byte (`continue`), `some c` a read
of the byte `c`.  Returns the final variables and the lines printed, in order. -/
def framedLoop (id : Int) : Parser → List (Option Nat) → Parser × List (List Nat)
  | p, [] => (p, [])
  | p, none :: rest => framedLoop id p rest
  | p, some c :: rest =>
    ((framedLoop id (step id p c).1 rest).1,
      (step id p c).2.toList ++ (framedLoop id (step id p c).1 rest).2)

/-- The framed loop fed a sequence of bytes, every read returning one byte. -/
def run (id : Int) (p : Parser) (bytes : List Nat) : Parser × List (List Nat) :=
  framedLoop id p (bytes.map some)

/-- The frame `<` digits `@` body `>` as a byte sequence. -/
def frame (digits body : List Nat) : List Nat :=
  60 :: (digits ++ 64 :: (body ++ [62]))

/-- The number denoted by a string of decimal digit characters. -/
def digitsValue (digits : List Nat) : Nat :=
  digits.foldl (fun v c => 10 * v + (c - 48)) 0

/-- The decimal digit characters of a natural number, most significant first. -/
def decimalDigits (f : Nat) : List Nat :=
  if f = 0 then [48] else ((Nat.digits 10 f).reverse.map (fun d => d + 48))

/-- The accumulator after reading the digit characters `ds` in state 2. -/
def accumulate (n : Int) (ds : List Nat) : Int :=
  ds.foldl (fun (a : Int) (c : Nat) => wrap32 (wrap32 (10 * a) + ((c : Int) - 48))) n

/-- The bound the framed loop keeps on `message_buffer`: at most 99 characters,
and fewer than 99 whenever the next byte may be appended or the body entered. -/
def BufferOk (p : Parser) : Prop :=
  p.message_buffer.length ≤ 99 ∧ (p.state = 2 ∨ p.state = 3 → p.message_buffer.length < 99)

/-! ## Raw mode and mode selection -/

/-- The raw loop (lines 293-301) over a finite sequence of `ReadFile` results:
the characters printed by `printf("%c", c)`, in order. -/
def rawLoop : List (Option Nat) → List Nat
  | [] => []
  | none :: rest => rawLoop rest
  | some c :: rest => c :: rawLoop rest

/-- A unit written to standard output: one character (raw mode) or one
message line (framed mode). -/
inductive Output where
  | char (c : Nat)
  | line (message : List Nat)
deriving DecidableEq, Repr

/-- The choice of loop at line 290: raw when `id == -1`, framed otherwise,
started with `state = 1`. -/
def decodeLoop (id : Int) (n : Int) (message_buffer : List Nat)
    (reads : List (Option Nat)) : List Output :=
  if id = -1 then (rawLoop reads).map Output.char
  else (framedLoop id ⟨1, n, message_buffer⟩ reads).2.map Output.line

/-! ## COM port scan -/

/-- A Windows handle; `none` stands for `INVALID_HANDLE_VALUE`. -/
abbrev HANDLE := Option Nat

/-- The globals the scan writes, and the device numbers for which `CreateFileA`
was called, in call order. -/
structure Scan where
  hSerialRead : HANDLE
  hSerialWrite : HANDLE
  dev_number : Int
  tried : List Int
deriving DecidableEq, Repr

/-- The loop `for (n = scan_max; n >= scan_min; --n)` of lines 189-205, started
at `n`, with a bound on the number of iterations; `none` when the bound is
reached.  `openRead n` and `openWrite n` are the results of the first and of the
second `CreateFileA` call for device `n`; the decrement of the `int` counter is
reduced to 32 bits. -/
def scanLoop (openRead openWrite : Int → HANDLE) (scan_min : Int) :
    Nat → Int → Scan → Option Scan
  | 0, n, s => if n ≥ scan_min then none else some s
  | fuel + 1, n, s =>
    if n ≥ scan_min then
      if openRead n ≠ none ∧ openWrite n ≠ none then
        some ⟨openRead n, openWrite n, n, s.tried ++ [n]⟩
      else
        scanLoop openRead openWrite scan_min fuel (wrap32 (n - 1))
          ⟨openRead n, openWrite n, s.dev_number, s.tried ++ [n]⟩
    else some s

/-- Lines 181-186: the scan range `(scan_max, scan_min)` after it is narrowed
to `dev_number` when one was given.  The arguments `scan_max` and `scan_min`
are the values of the globals before line 181 (30 and 1). -/
def scanRange (scan_max scan_min dev_number : Int) : Int × Int :=
  if dev_number ≠ -1 then (dev_number, dev_number) else (scan_max, scan_min)

/-- Lines 181-212: the ports of the scan range are tried downwards, and the
program exits with code 1 (`Except.error 1`) when a handle is invalid after
the scan.  The loop of the source has no bound of its own: `fuel` bounds the
number of iterations looked at, and `none` means the loop is still running
after `fuel` iterations. -/
def locate (fuel : Nat) (openRead openWrite : Int → HANDLE)
    (scan_max scan_min dev_number : Int) : Option (Except Nat Scan) :=
  match scanLoop openRead openWrite (scanRange scan_max scan_min dev_number).2 fuel
      (scanRange scan_max scan_min dev_number).1 ⟨none, none, dev_number, []⟩ with
  | none => none
  | some s =>
    if s.hSerialRead = none then some (Except.error 1)
    else if s.hSerialWrite = none then some (Except.error 1)
    else some (Except.ok s)

/-- The device numbers from `hi` down to `lo`. -/
def descending (hi lo : Int) : List Int :=
  (List.range (hi - lo + 1).toNat).map (fun (k : Nat) => hi - (k : Int))

/-! ## Link configuration -/

/-- The fields of the Windows `DCB` structure that `main` writes. -/
structure DCB where
  BaudRate : Int
  ByteSize : Int
  StopBits : Int
  Parity : Int
deriving DecidableEq, Repr

/-- Lines 233-241 on the two structures filled by `GetCommState`; the result is
the pair passed to `SetCommState` for `hSerialRead` and for `hSerialWrite`.
The constants `CBR_19200`, `ONESTOPBIT` and `NOPARITY` come from the Windows
headers and are parameters here.  `BaudRate` is a `DWORD`, so the `int`
`baudrate` is stored modulo 2^32. -/
def configure (CBR_19200 ONESTOPBIT NOPARITY : Int) (baudrate : Int)
    (dcbSerialParams dcbSerialParamsWrite : DCB) : DCB × DCB :=
  let w1 : DCB := { dcbSerialParamsWrite with BaudRate := CBR_19200 }
  let r1 : DCB := { dcbSerialParams with ByteSize := 8 }
  let r2 : DCB := { r1 with StopBits := ONESTOPBIT }
  let r3 : DCB := { r2 with Parity := NOPARITY }
  let r4 : DCB := { r3 with BaudRate := baudrate % 4294967296 }
  let r5 : DCB := { r4 with ByteSize := 8 }
  let r6 : DCB := { r5 with StopBits := ONESTOPBIT }
  let r7 : DCB := { r6 with Parity := NOPARITY }
  (r7, w1)

/-! ## Single steps -/

theorem step_idle (id n : Int) (b : List Nat) (c : Nat) :
    step id ⟨1, n, b⟩ c = (⟨if c = 60 then 2 else 1, 0, []⟩, none) := by
  simp [step]

theorem step_digit (id n : Int) (b : List Nat) (c : Nat) (h1 : 48 ≤ c) (h2 : c ≤ 57) :
    step id ⟨2, n, b⟩ c = (⟨2, wrap32 (wrap32 (10 * n) + ((c : Int) - 48)), b⟩, none) := by
  simp [step, h1, h2]

theorem step_at (id n : Int) (b : List Nat) :
    step id ⟨2, n, b⟩ 64 = (⟨3, n, b⟩, none) := by
  simp [step]

theorem step_other (id n : Int) (b : List Nat) (c : Nat) (h : ¬ (48 ≤ c ∧ c ≤ 57))
    (h64 : c ≠ 64) : step id ⟨2, n, b⟩ c = (⟨1, n, b⟩, none) := by
  simp only [step]
  simp [h, h64]

theorem step_mismatch (id n : Int) (b : List Nat) (c : Nat) (h : n ≠ id)
    (hb : b.length < 99) : step id ⟨3, n, b⟩ c = (⟨1, n, b⟩, none) := by
  have hb2 : ¬ (99 ≤ b.length) := by omega
  simp [step, h, MESSAGE_LENGTH, hb2]

theorem step_append (id : Int) (b : List Nat) (c : Nat) (h62 : c ≠ 62) (h0 : c ≠ 0) :
    step id ⟨3, id, b⟩ c =
      (⟨if 99 ≤ b.length + 1 then 4 else 3, id, b ++ [c]⟩, none) := by
  by_cases hb : 99 ≤ b.length + 1 <;> simp [step, strncat1, h62, h0, MESSAGE_LENGTH, hb]

theorem step_close (id : Int) (b : List Nat) :
    step id ⟨3, id, b⟩ 62 = (⟨4, id, b⟩, none) := by
  by_cases hb : 99 ≤ b.length <;> simp [step, MESSAGE_LENGTH, hb]

theorem step_emit (id n : Int) (b : List Nat) (c : Nat) :
    step id ⟨4, n, b⟩ c = (⟨1, n, b⟩, some b) := by
  simp [step]

/-! ## Runs -/

theorem run_nil (id : Int) (p : Parser) : run id p [] = (p, []) := rfl

theorem run_cons (id : Int) (p : Parser) (c : Nat) (cs : List Nat) :
    run id p (c :: cs) =
      ((run id (step id p c).1 cs).1, (step id p c).2.toList ++ (run id (step id p c).1 cs).2) :=
  rfl

theorem run_append (id : Int) (p : Parser) (xs ys : List Nat) :
    run id p (xs ++ ys) =
      ((run id (run id p xs).1 ys).1, (run id p xs).2 ++ (run id (run id p xs).1 ys).2) := by
  induction xs generalizing p with
  | nil => simp [run_nil]
  | cons c cs ih => simp [run_cons, ih, List.append_assoc]

/-- In state 1 bytes other than `<` are discarded; each of them clears `n` and
the buffer. -/
theorem run_idle (id n : Int) (b : List Nat) (cs : List Nat) (h : ∀ c ∈ cs, c ≠ 60) :
    run id ⟨1, n, b⟩ cs = (if cs = [] then ⟨1, n, b⟩ else ⟨1, 0, []⟩, []) := by
  induction cs generalizing n b with
  | nil => simp [run_nil]
  | cons c cs ih =>
    have hc : c ≠ 60 := h c (List.mem_cons_self _ _)
    have hcs : ∀ c ∈ cs, c ≠ 60 := fun d hd => h d (List.mem_cons_of_mem _ hd)
    rw [run_cons, step_idle]
    simp only [hc, if_false]
    rw [ih 0 [] hcs]
    by_cases hnil : cs = [] <;> simp [hnil]

theorem run_digits (id n : Int) (b : List Nat) (ds : List Nat)
    (h : ∀ c ∈ ds, 48 ≤ c ∧ c ≤ 57) :
    run id ⟨2, n, b⟩ ds = (⟨2, accumulate n ds, b⟩, []) := by
  induction ds generalizing n with
  | nil => simp [run_nil, accumulate]
  | cons c cs ih =>
    have hc := h c (List.mem_cons_self _ _)
    have hcs : ∀ c ∈ cs, 48 ≤ c ∧ c ≤ 57 := fun d hd => h d (List.mem_cons_of_mem _ hd)
    rw [run_cons, step_digit id n b c hc.1 hc.2]
    simp only [ih _ hcs]
    simp [accumulate]

theorem wrap32_step (v : Nat) (c : Nat) (hc : 48 ≤ c) :
    wrap32 (wrap32 (10 * wrap32 (v : Int)) + ((c : Int) - 48)) =
      wrap32 ((10 * v + (c - 48) : Nat) : Int) := by
  unfold wrap32
  omega

theorem accumulate_cons (n : Int) (c : Nat) (cs : List Nat) :
    accumulate n (c :: cs) = accumulate (wrap32 (wrap32 (10 * n) + ((c : Int) - 48))) cs := by
  simp only [accumulate, List.foldl_cons]

theorem accumulate_nil (n : Int) : accumulate n [] = n := by
  simp only [accumulate, List.foldl_nil]

theorem accumulate_wrap (v : Nat) (ds : List Nat) (h : ∀ c ∈ ds, 48 ≤ c ∧ c ≤ 57) :
    accumulate (wrap32 (v : Int)) ds =
      wrap32 ((ds.foldl (fun v c => 10 * v + (c - 48)) v : Nat) : Int) := by
  induction ds generalizing v with
  | nil => rw [accumulate_nil, List.foldl_nil]
  | cons c cs ih =>
    have hc := h c (List.mem_cons_self _ _)
    have hcs : ∀ c ∈ cs, 48 ≤ c ∧ c ≤ 57 := fun d hd => h d (List.mem_cons_of_mem _ hd)
    rw [accumulate_cons, wrap32_step v c hc.1, ih (10 * v + (c - 48)) hcs, List.foldl_cons]

/-- Reading a digit string from a cleared accumulator leaves the 32-bit
reduction of the number the string denotes. -/
theorem accumulate_zero (ds : List Nat) (h : ∀ c ∈ ds, 48 ≤ c ∧ c ≤ 57) :
    accumulate 0 ds = wrap32 (digitsValue ds : Int) := by
  have h0 : wrap32 ((0 : Nat) : Int) = 0 := by
    unfold wrap32
    omega
  have := accumulate_wrap 0 ds h
  rw [h0] at this
  exact this

theorem wrap32_small (v : Nat) (h : v < 2147483648) : wrap32 (v : Int) = v := by
  unfold wrap32
  omega

/-- In state 3 with a matching id, body characters other than `>` and NUL are
appended while the buffer stays below 99 characters. -/
theorem run_body (id : Int) (b bs : List Nat) (h : ∀ c ∈ bs, c ≠ 62 ∧ c ≠ 0)
    (hlen : b.length + bs.length < 99) :
    run id ⟨3, id, b⟩ bs = (⟨3, id, b ++ bs⟩, []) := by
  induction bs generalizing b with
  | nil => simp [run_nil]
  | cons c cs ih =>
    have hc := h c (List.mem_cons_self _ _)
    have hcs : ∀ c ∈ cs, c ≠ 62 ∧ c ≠ 0 := fun d hd => h d (List.mem_cons_of_mem _ hd)
    simp only [List.length_cons] at hlen
    have hb : ¬ (99 ≤ b.length + 1) := by omega
    rw [run_cons, step_append id b c hc.1 hc.2]
    simp only [hb, if_false]
    rw [ih (b ++ [c]) hcs (by simp; omega)]
    simp

/-- Filling the buffer up to exactly 99 characters forces state 4. -/
theorem run_body_fill (id : Int) (b bs : List Nat) (h : ∀ c ∈ bs, c ≠ 62 ∧ c ≠ 0)
    (hne : bs ≠ []) (hlen : b.length + bs.length = 99) :
    run id ⟨3, id, b⟩ bs = (⟨4, id, b ++ bs⟩, []) := by
  induction bs generalizing b with
  | nil => exact absurd rfl hne
  | cons c cs ih =>
    have hc := h c (List.mem_cons_self _ _)
    have hcs : ∀ c ∈ cs, c ≠ 62 ∧ c ≠ 0 := fun d hd => h d (List.mem_cons_of_mem _ hd)
    simp only [List.length_cons] at hlen
    rw [run_cons, step_append id b c hc.1 hc.2]
    by_cases hnil : cs = []
    · subst hnil
      simp only [List.length_nil] at hlen
      have hb : 99 ≤ b.length + 1 := by omega
      simp [hb, run_nil]
    · have hpos : 0 < cs.length := List.length_pos.mpr hnil
      have hb : ¬ (99 ≤ b.length + 1) := by omega
      simp only [hb, if_false]
      rw [ih (b ++ [c]) hcs hnil (by simp; omega)]
      simp

/-! ## Digit strings -/

theorem decimalDigits_digit (f : Nat) : ∀ c ∈ decimalDigits f, 48 ≤ c ∧ c ≤ 57 := by
  intro c hc
  unfold decimalDigits at hc
  split at hc
  · simp at hc
    omega
  · simp only [List.mem_map, List.mem_reverse] at hc
    obtain ⟨d, hd, rfl⟩ := hc
    have := Nat.digits_lt_base (by norm_num : 1 < 10) hd
    omega

theorem foldl_reverse_digits (l : List Nat) :
    (l.reverse.map (fun d => d + 48)).foldl (fun v c => 10 * v + (c - 48)) 0 =
      Nat.ofDigits 10 l := by
  induction l with
  | nil => simp
  | cons d l ih =>
    simp only [List.reverse_cons, List.map_append, List.map_cons, List.map_nil,
      List.foldl_append, List.foldl_cons, List.foldl_nil, ih, Nat.ofDigits_cons]
    omega

theorem digitsValue_decimalDigits (f : Nat) : digitsValue (decimalDigits f) = f := by
  unfold decimalDigits digitsValue
  split
  · next h => simp [h]
  · rw [foldl_reverse_digits, Nat.ofDigits_digits]

theorem foldl_digits_lt (ds : List Nat) (h : ∀ c ∈ ds, 48 ≤ c ∧ c ≤ 57) (v : Nat) :
    ds.foldl (fun v c => 10 * v + (c - 48)) v < (v + 1) * 10 ^ ds.length := by
  induction ds generalizing v with
  | nil => simp
  | cons c cs ih =>
    have hc := h c (List.mem_cons_self _ _)
    have hcs : ∀ c ∈ cs, 48 ≤ c ∧ c ≤ 57 := fun d hd => h d (List.mem_cons_of_mem _ hd)
    have h1 := ih hcs (10 * v + (c - 48))
    have h2 : (10 * v + (c - 48) + 1) * 10 ^ cs.length ≤ (v + 1) * 10 ^ (cs.length + 1) := by
      rw [pow_succ, ← mul_assoc, mul_comm ((v + 1) * 10 ^ cs.length) 10, ← mul_assoc]
      exact Nat.mul_le_mul_right _ (by omega)
    simp only [List.foldl_cons, List.length_cons]
    omega

/-- A string of at most nine digits denotes a number an `int` holds. -/
theorem digitsValue_lt (ds : List Nat) (h : ∀ c ∈ ds, 48 ≤ c ∧ c ≤ 57) (hlen : ds.length ≤ 9) :
    digitsValue ds < 1000000000 := by
  have h1 := foldl_digits_lt ds h 0
  have h2 : 10 ^ ds.length ≤ 10 ^ 9 := Nat.pow_le_pow_right (by norm_num) hlen
  unfold digitsValue
  norm_num at h1 h2 ⊢
  omega

/-! ## Whole frames -/

theorem frame_split (ds body : List Nat) :
    frame ds body = (60 :: (ds ++ [64])) ++ (body ++ [62]) := by
  simp [frame]

/-- From state 1, `<` digits `@` leads to state 3 with an empty buffer and the
32-bit reduction of the id in `n`. -/
theorem run_header (id n0 : Int) (b0 ds : List Nat) (h : ∀ c ∈ ds, 48 ≤ c ∧ c ≤ 57) :
    run id ⟨1, n0, b0⟩ (60 :: (ds ++ [64])) = (⟨3, wrap32 (digitsValue ds : Int), []⟩, []) := by
  rw [run_cons, step_idle]
  simp only [if_true]
  rw [run_append, run_digits id 0 [] ds h, accumulate_zero ds h, run_cons, step_at, run_nil]
  simp

/-- A frame whose id matches and whose body fits is held complete in state 4. -/
theorem run_frame_match (id n0 : Int) (b0 ds body : List Nat)
    (h : ∀ c ∈ ds, 48 ≤ c ∧ c ≤ 57) (hid : wrap32 (digitsValue ds : Int) = id)
    (hbody : ∀ c ∈ body, c ≠ 62 ∧ c ≠ 0) (hlen : body.length < 99) :
    run id ⟨1, n0, b0⟩ (frame ds body) = (⟨4, id, body⟩, []) := by
  rw [frame_split, run_append, run_header id n0 b0 ds h, hid, run_append,
    run_body id [] body hbody (by simpa using hlen), run_cons, step_close, run_nil]
  simp

/-- A frame whose id differs is dropped: the parser is back in state 1. -/
theorem run_frame_mismatch (id n0 : Int) (b0 ds body : List Nat)
    (h : ∀ c ∈ ds, 48 ≤ c ∧ c ≤ 57) (hid : wrap32 (digitsValue ds : Int) ≠ id)
    (hbody : ∀ c ∈ body, c ≠ 60) :
    run id ⟨1, n0, b0⟩ (frame ds body) =
      (⟨1, if body = [] then wrap32 (digitsValue ds : Int) else 0, []⟩, []) := by
  rw [frame_split, run_append, run_header id n0 b0 ds h]
  cases body with
  | nil =>
    simp only [List.nil_append]
    rw [run_cons, step_mismatch id _ [] 62 hid (by simp), run_nil]
    simp
  | cons c cs =>
    have hcs : ∀ d ∈ cs ++ [62], d ≠ 60 := by
      intro d hd
      rcases List.mem_append.mp hd with hd | hd
      · exact hbody d (List.mem_cons_of_mem _ hd)
      · simp at hd
        omega
    simp only [List.cons_append]
    rw [run_cons, step_mismatch id _ [] c hid (by simp), run_idle id _ [] (cs ++ [62]) hcs]
    simp

/-- A frame whose id matches and whose body has more than 99 characters: the
first 99 are printed when the 100th arrives, the rest is discarded. -/
theorem run_frame_long (id n0 : Int) (b0 ds body : List Nat)
    (h : ∀ c ∈ ds, 48 ≤ c ∧ c ≤ 57) (hid : wrap32 (digitsValue ds : Int) = id)
    (hbody : ∀ c ∈ body, c ≠ 60 ∧ c ≠ 62 ∧ c ≠ 0) (hlen : 99 < body.length) :
    run id ⟨1, n0, b0⟩ (frame ds body) = (⟨1, 0, []⟩, [body.take 99]) := by
  have hsplit : body = body.take 99 ++ body.drop 99 := (List.take_append_drop 99 body).symm
  have htake : (body.take 99).length = 99 := by
    rw [List.length_take]
    omega
  have hdrop : (body.drop 99).length = body.length - 99 := List.length_drop 99 body
  have h1 : ∀ c ∈ body.take 99, c ≠ 62 ∧ c ≠ 0 :=
    fun c hc => (hbody c (List.mem_of_mem_take hc)).2
  have h1ne : body.take 99 ≠ [] := by
    intro hnil
    rw [hnil] at htake
    simp at htake
  cases hd : body.drop 99 with
  | nil =>
    rw [hd] at hdrop
    simp at hdrop
    omega
  | cons x tl =>
    have htl : ∀ d ∈ tl ++ [62], d ≠ 60 := by
      intro d hdm
      rcases List.mem_append.mp hdm with hdm | hdm
      · have : d ∈ body.drop 99 := by
          rw [hd]
          exact List.mem_cons_of_mem _ hdm
        exact (hbody d (List.mem_of_mem_drop this)).1
      · simp at hdm
        omega
    have hframe : frame ds body =
        (60 :: (ds ++ [64])) ++ (body.take 99 ++ (x :: (tl ++ [62]))) := by
      rw [frame_split]
      conv_lhs => rw [hsplit, hd]
      simp
    rw [hframe, run_append, run_header id n0 b0 ds h, hid, run_append,
      run_body_fill id [] (body.take 99) h1 h1ne (by simpa using htake), run_cons, step_emit,
      run_idle id _ _ (tl ++ [62]) htl]
    simp

/-! ## The buffer bound -/

theorem step_bufferOk (id : Int) (p : Parser) (c : Nat) (hp : BufferOk p) :
    BufferOk (step id p c).1 ∧ ∀ m, (step id p c).2 = some m → m.length ≤ 99 := by
  obtain ⟨s, n, b⟩ := p
  obtain ⟨h1, h2⟩ := hp
  simp only at h1 h2
  by_cases hs1 : s = 1
  · subst hs1
    rw [step_idle]
    by_cases hc : c = 60 <;> simp [BufferOk, hc]
  by_cases hs2 : s = 2
  · subst hs2
    have hb : b.length < 99 := h2 (Or.inl rfl)
    by_cases hd : 48 ≤ c ∧ c ≤ 57
    · rw [step_digit id n b c hd.1 hd.2]
      simp [BufferOk, hb, h1]
    · by_cases h64 : c = 64
      · subst h64
        rw [step_at]
        simp [BufferOk, hb, h1]
      · rw [step_other id n b c hd h64]
        simp [BufferOk, h1]
  by_cases hs3 : s = 3
  · subst hs3
    have hb : b.length < 99 := h2 (Or.inr rfl)
    by_cases hn : n = id
    · subst hn
      by_cases h62 : c = 62
      · subst h62
        rw [step_close]
        simp [BufferOk, h1]
      · by_cases h0 : c = 0
        · subst h0
          have hb2 : ¬ (99 ≤ b.length) := by omega
          simp [step, strncat1, MESSAGE_LENGTH, hb2, BufferOk, hb, h1]
        · rw [step_append n b c h62 h0]
          by_cases hfull : 99 ≤ b.length + 1
          · simp only [hfull, if_true, BufferOk, List.length_append, List.length_singleton]
            refine ⟨⟨by omega, ?_⟩, by simp⟩
            intro h
            rcases h with h | h <;> simp at h
          · simp only [hfull, if_false, BufferOk, List.length_append, List.length_singleton]
            exact ⟨⟨by omega, fun _ => by omega⟩, by simp⟩
    · rw [step_mismatch id n b c hn hb]
      simp [BufferOk, h1]
  by_cases hs4 : s = 4
  · subst hs4
    rw [step_emit]
    simp only [BufferOk]
    refine ⟨⟨h1, ?_⟩, ?_⟩
    · intro h
      rcases h with h | h <;> simp at h
    · intro m hm
      simp only [Option.some.injEq] at hm
      rw [← hm]
      exact h1
  · simp only [step, hs1, hs2, hs3, hs4, if_false, BufferOk]
    refine ⟨⟨h1, ?_⟩, by simp⟩
    intro h
    rcases h with h | h <;> simp at h

theorem run_bufferOk (id : Int) (p : Parser) (bytes : List Nat) (hp : BufferOk p) :
    BufferOk (run id p bytes).1 ∧ ∀ m ∈ (run id p bytes).2, m.length ≤ 99 := by
  induction bytes generalizing p with
  | nil => simp [run_nil, hp]
  | cons c cs ih =>
    have h1 := step_bufferOk id p c hp
    have h2 := ih (step id p c).1 h1.1
    rw [run_cons]
    refine ⟨h2.1, ?_⟩
    intro m hm
    rcases List.mem_append.mp hm with hm | hm
    · apply h1.2
      cases hso : (step id p c).2 with
      | none => simp [hso] at hm
      | some m2 =>
        simp [hso] at hm
        rw [hm]
    · exact h2.2 m hm

/-! ## Properties of the framed mode -/

/-- C1, as stated, fails: after exactly the bytes of `<5@hello>` with filter 5
nothing has been printed; the parser waits in state 4 with the body buffered. -/
theorem single_frame_not_yet_emitted :
    run 5 ⟨1, 0, []⟩ (frame (decimalDigits 5) [104, 101, 108, 108, 111]) =
      (⟨4, 5, [104, 101, 108, 108, 111]⟩, []) := by
  rw [show decimalDigits 5 = [53] by simp [decimalDigits]]
  decide

/-- C1, amended: for a filter id `f < 2^31` and a body of fewer than 99 bytes
without `<`, `>` and NUL, the bytes `<`, digits of `f`, `@`, body, `>` fed from
state 1 print nothing and leave the parser in state 4 holding the body; the
next byte read, whatever it is, prints exactly the body, once, and returns the
parser to state 1. -/
theorem single_frame_emitted_on_next_byte (f : Nat) (body : List Nat) (n0 : Int)
    (b0 : List Nat) (x : Nat) (hf : f < 2147483648) (hlen : body.length < 99)
    (hbody : ∀ c ∈ body, c ≠ 60 ∧ c ≠ 62 ∧ c ≠ 0) :
    run f ⟨1, n0, b0⟩ (frame (decimalDigits f) body) = (⟨4, f, body⟩, []) ∧
    run f ⟨1, n0, b0⟩ (frame (decimalDigits f) body ++ [x]) = (⟨1, f, body⟩, [body]) := by
  have hid : wrap32 (digitsValue (decimalDigits f) : Int) = (f : Int) := by
    rw [digitsValue_decimalDigits]
    exact wrap32_small f hf
  have h1 := run_frame_match f n0 b0 (decimalDigits f) body (decimalDigits_digit f) hid
    (fun c hc => (hbody c hc).2) hlen
  refine ⟨h1, ?_⟩
  rw [run_append, h1, run_cons, step_emit, run_nil]
  simp

/-- The amended C1 at `<5@hello>` followed by a line feed, filter 5. -/
theorem single_frame_emitted_on_next_byte_witness :
    run 5 ⟨1, 0, []⟩ (frame (decimalDigits 5) [104, 101, 108, 108, 111]) =
      (⟨4, 5, [104, 101, 108, 108, 111]⟩, []) ∧
    run 5 ⟨1, 0, []⟩ (frame (decimalDigits 5) [104, 101, 108, 108, 111] ++ [10]) =
      (⟨1, 5, [104, 101, 108, 108, 111]⟩, [[104, 101, 108, 108, 111]]) :=
  single_frame_emitted_on_next_byte 5 [104, 101, 108, 108, 111] 0 [] 10 (by decide) (by decide)
    (by decide)

/-- C2, as stated, fails: with filter 5 the frames `<5@a>` and `<5@b>` fed back
to back print only `a`, also when a further byte follows. -/
theorem second_frame_lost_after_match :
    (run 5 ⟨1, 0, []⟩ (frame [53] [97] ++ frame [53] [98])).2 = [[97]] ∧
    (run 5 ⟨1, 0, []⟩ (frame [53] [97] ++ frame [53] [98] ++ [10])).2 = [[97]] := by
  decide

/-- C2, amended: for two well-formed frames fed back to back from state 1, the
body of the first is printed (on the `<` of the second) exactly when its id
equals the filter, and the second frame is then skipped whole; when the id of
the first differs, the second is decoded on its own and its body is printed on
the next byte read exactly when its id equals the filter. -/
theorem two_frames_back_to_back (f n0 : Int) (b0 ds1 body1 ds2 body2 : List Nat) (x : Nat)
    (hds1 : ∀ c ∈ ds1, 48 ≤ c ∧ c ≤ 57) (hl1 : 1 ≤ ds1.length ∧ ds1.length ≤ 9)
    (hds2 : ∀ c ∈ ds2, 48 ≤ c ∧ c ≤ 57) (hl2 : 1 ≤ ds2.length ∧ ds2.length ≤ 9)
    (hb1 : ∀ c ∈ body1, c ≠ 60 ∧ c ≠ 62 ∧ c ≠ 0) (hlen1 : body1.length < 99)
    (hb2 : ∀ c ∈ body2, c ≠ 60 ∧ c ≠ 62 ∧ c ≠ 0) (hlen2 : body2.length < 99) :
    (run f ⟨1, n0, b0⟩ (frame ds1 body1 ++ frame ds2 body2)).2 =
      (if (digitsValue ds1 : Int) = f then [body1] else []) ∧
    (run f ⟨1, n0, b0⟩ (frame ds1 body1 ++ frame ds2 body2 ++ [x])).2 =
      (if (digitsValue ds1 : Int) = f then [body1]
       else if (digitsValue ds2 : Int) = f then [body2] else []) := by
  have hw1 : wrap32 (digitsValue ds1 : Int) = digitsValue ds1 :=
    wrap32_small _ (by have := digitsValue_lt ds1 hds1 hl1.2; omega)
  have hw2 : wrap32 (digitsValue ds2 : Int) = digitsValue ds2 :=
    wrap32_small _ (by have := digitsValue_lt ds2 hds2 hl2.2; omega)
  have hrest : ∀ d ∈ ds2 ++ 64 :: (body2 ++ [62]), d ≠ 60 := by
    intro d hd
    rcases List.mem_append.mp hd with hd | hd
    · have := hds2 d hd
      omega
    · rcases List.mem_cons.mp hd with hd | hd
      · omega
      · rcases List.mem_append.mp hd with hd | hd
        · exact (hb2 d hd).1
        · simp at hd
          omega
  have hrest_ne : ds2 ++ 64 :: (body2 ++ [62]) ≠ [] := by simp
  by_cases h1 : (digitsValue ds1 : Int) = f
  · have hm := run_frame_match f n0 b0 ds1 body1 hds1 (by rw [hw1]; exact h1)
      (fun c hc => (hb1 c hc).2) hlen1
    have hF2 : run f ⟨4, f, body1⟩ (frame ds2 body2) = (⟨1, 0, []⟩, [body1]) := by
      unfold frame
      rw [run_cons, step_emit, run_idle f f body1 _ hrest]
      simp
    constructor
    · rw [run_append, hm, hF2]
      simp [h1]
    · rw [run_append, run_append, hm, hF2, run_cons, step_idle, run_nil]
      simp [h1]
  · have hm := run_frame_mismatch f n0 b0 ds1 body1 hds1 (by rw [hw1]; exact h1)
      (fun c hc => (hb1 c hc).1)
    by_cases h2 : (digitsValue ds2 : Int) = f
    · have hm2 := run_frame_match f (if body1 = [] then wrap32 (digitsValue ds1 : Int) else 0)
        [] ds2 body2 hds2 (by rw [hw2]; exact h2) (fun c hc => (hb2 c hc).2) hlen2
      constructor
      · rw [run_append, hm, hm2]
        simp [h1]
      · rw [run_append, run_append, hm, hm2, run_cons, step_emit, run_nil]
        simp [h1, h2]
    · have hm2 := run_frame_mismatch f
        (if body1 = [] then wrap32 (digitsValue ds1 : Int) else 0) [] ds2 body2 hds2
        (by rw [hw2]; exact h2) (fun c hc => (hb2 c hc).1)
      constructor
      · rw [run_append, hm, hm2]
        simp [h1]
      · rw [run_append, run_append, hm, hm2, run_cons, step_idle, run_nil]
        simp [h1, h2]

/-- The amended C2 at `<7@a>` followed by `<5@b>` and a line feed, filter 5. -/
theorem two_frames_back_to_back_witness :
    (run 5 ⟨1, 0, []⟩ (frame [55] [97] ++ frame [53] [98])).2 =
      (if (digitsValue [55] : Int) = 5 then [[97]] else []) ∧
    (run 5 ⟨1, 0, []⟩ (frame [55] [97] ++ frame [53] [98] ++ [10])).2 =
      (if (digitsValue [55] : Int) = 5 then [[97]]
       else if (digitsValue [53] : Int) = 5 then [[98]] else []) :=
  two_frames_back_to_back 5 0 [] [55] [97] [53] [98] 10 (by decide) (by decide) (by decide)
    (by decide) (by decide) (by decide) (by decide) (by decide)

/-- C3: with filter id `f < 2^31`, a frame with id `f` whose body has more than
99 bytes (none of them `<`, `>` or NUL) prints exactly one message, the first
99 bytes of the body, and nothing else. -/
theorem long_body_truncated (f : Nat) (body : List Nat) (n0 : Int) (b0 : List Nat)
    (hf : f < 2147483648) (hlen : 99 < body.length)
    (hbody : ∀ c ∈ body, c ≠ 60 ∧ c ≠ 62 ∧ c ≠ 0) :
    (run f ⟨1, n0, b0⟩ (frame (decimalDigits f) body)).2 = [body.take 99] ∧
    (body.take 99).length = 99 ∧
    (run f ⟨1, n0, b0⟩ (frame (decimalDigits f) body)).1.state = 1 := by
  have hid : wrap32 (digitsValue (decimalDigits f) : Int) = (f : Int) := by
    rw [digitsValue_decimalDigits]
    exact wrap32_small f hf
  rw [run_frame_long f n0 b0 (decimalDigits f) body (decimalDigits_digit f) hid hbody hlen]
  refine ⟨rfl, ?_, rfl⟩
  rw [List.length_take]
  omega

/-- C3 at a body of 100 letters `a`, filter 5. -/
theorem long_body_truncated_witness :
    (run 5 ⟨1, 0, []⟩ (frame (decimalDigits 5) (List.replicate 100 97))).2 =
      [(List.replicate 100 97).take 99] ∧
    ((List.replicate 100 97).take 99).length = 99 ∧
    (run 5 ⟨1, 0, []⟩ (frame (decimalDigits 5) (List.replicate 100 97))).1.state = 1 :=
  long_body_truncated 5 (List.replicate 100 97) 0 [] (by decide) (by simp) (by simp)

/-- C4, as stated, fails: a `<` read in state 2 leads to state 1, not to state
2, and is itself consumed; a `<` read in state 3 with a matching id is appended
to the buffer.  With filter 5, `<1<5@hi>` prints nothing and `<5@ab<5@hi>`
prints `ab<5@hi`, also when a line feed follows. -/
theorem lt_does_not_restart_frame :
    (step 5 ⟨2, 1, []⟩ 60).1 = ⟨1, 1, []⟩ ∧
    (step 5 ⟨3, 5, [97, 98]⟩ 60).1 = ⟨3, 5, [97, 98, 60]⟩ ∧
    (run 5 ⟨1, 0, []⟩ [60, 49, 60, 53, 64, 104, 105, 62, 10]).2 = [] ∧
    (run 5 ⟨1, 0, []⟩ [60, 53, 64, 97, 98, 60, 53, 64, 104, 105, 62, 10]).2 =
      [[97, 98, 60, 53, 64, 104, 105]] := by
  decide

/-- C4, amended: a `<` read in state 2 abandons the frame and leaves the parser
in state 1 with `n` and the buffer as they were (the next byte read in state 1
clears them), so that `<` does not open a frame: after `<` digits `<`, bytes
up to the next `<` are discarded.  A `<` read in state 3 leads to state 1 when
`n` differs from the filter id, and is appended to the buffer as a body
character when `n` equals it (state 4 once the buffer holds 99 characters). -/
theorem lt_in_flight (id n : Int) (b ds rest : List Nat) (n0 : Int) (b0 : List Nat) :
    step id ⟨2, n, b⟩ 60 = (⟨1, n, b⟩, none) ∧
    (∀ c, (step id ⟨1, n, b⟩ c).1.n = 0 ∧ (step id ⟨1, n, b⟩ c).1.message_buffer = []) ∧
    (n ≠ id → b.length < 99 → step id ⟨3, n, b⟩ 60 = (⟨1, n, b⟩, none)) ∧
    step id ⟨3, id, b⟩ 60 = (⟨if 99 ≤ b.length + 1 then 4 else 3, id, b ++ [60]⟩, none) ∧
    ((∀ c ∈ ds, 48 ≤ c ∧ c ≤ 57) → (∀ c ∈ rest, c ≠ 60) →
      (run id ⟨1, n0, b0⟩ (60 :: (ds ++ 60 :: rest))).2 = [] ∧
      (run id ⟨1, n0, b0⟩ (60 :: (ds ++ 60 :: rest))).1.state = 1) := by
  refine ⟨step_other id n b 60 (by omega) (by omega), ?_, ?_, ?_, ?_⟩
  · intro c
    rw [step_idle]
    exact ⟨rfl, rfl⟩
  · intro hn hb
    exact step_mismatch id n b 60 hn hb
  · exact step_append id b 60 (by omega) (by omega)
  · intro hds hrest
    rw [run_cons, step_idle]
    simp only [if_true]
    rw [run_append, run_digits id 0 [] ds hds, run_cons, step_other id _ [] 60 (by omega)
      (by omega), run_idle id _ [] rest hrest]
    by_cases hnil : rest = [] <;> simp [hnil]

/-- The amended C4 at filter 5, `n = 1`, and the stream `<1<5@hi>`. -/
theorem lt_in_flight_witness :
    step 5 ⟨3, 1, []⟩ 60 = (⟨1, 1, []⟩, none) ∧
    (run 5 ⟨1, 0, []⟩ (60 :: ([49] ++ 60 :: [53, 64, 104, 105, 62]))).2 = [] ∧
    (run 5 ⟨1, 0, []⟩ (60 :: ([49] ++ 60 :: [53, 64, 104, 105, 62]))).1.state = 1 :=
  ⟨(lt_in_flight 5 1 [] [49] [53, 64, 104, 105, 62] 0 []).2.2.1 (by decide) (by decide),
    (lt_in_flight 5 1 [] [49] [53, 64, 104, 105, 62] 0 []).2.2.2.2 (by decide) (by decide)⟩

/-- C5: with filter id `f ≥ 0`, a frame whose id is a string of 1 to 9 digits
denoting a number other than `f`, and whose body contains no `<`, prints
nothing and leaves the parser in state 1. -/
theorem id_mismatch_dropped (f n0 : Int) (b0 ds body : List Nat) (_hf : 0 ≤ f)
    (hds : ∀ c ∈ ds, 48 ≤ c ∧ c ≤ 57) (hl : 1 ≤ ds.length ∧ ds.length ≤ 9)
    (hne : (digitsValue ds : Int) ≠ f) (hbody : ∀ c ∈ body, c ≠ 60) :
    (run f ⟨1, n0, b0⟩ (frame ds body)).2 = [] ∧
    (run f ⟨1, n0, b0⟩ (frame ds body)).1.state = 1 := by
  have hw : wrap32 (digitsValue ds : Int) = digitsValue ds :=
    wrap32_small _ (by have := digitsValue_lt ds hds hl.2; omega)
  rw [run_frame_mismatch f n0 b0 ds body hds (by rw [hw]; exact hne) hbody]
  exact ⟨rfl, rfl⟩

/-- C5 at `<5@hello>` with filter 9. -/
theorem id_mismatch_dropped_witness :
    (run 9 ⟨1, 0, []⟩ (frame [53] [104, 101, 108, 108, 111])).2 = [] ∧
    (run 9 ⟨1, 0, []⟩ (frame [53] [104, 101, 108, 108, 111])).1.state = 1 :=
  id_mismatch_dropped 9 0 [] [53] [104, 101, 108, 108, 111] (by decide) (by decide)
    (by decide) (by decide) (by decide)

/-- C10: from state 1 with an empty buffer, after any byte sequence the buffer
holds at most 99 characters, fewer than 99 whenever the parser is in state 3,
and every message printed has at most 99 characters.  The same holds from
state 1 with any buffer contents once a first byte has been read. -/
theorem buffer_capacity (id n0 : Int) (bytes : List Nat) :
    (run id ⟨1, n0, []⟩ bytes).1.message_buffer.length ≤ 99 ∧
    ((run id ⟨1, n0, []⟩ bytes).1.state = 3 →
      (run id ⟨1, n0, []⟩ bytes).1.message_buffer.length < 99) ∧
    (∀ m ∈ (run id ⟨1, n0, []⟩ bytes).2, m.length ≤ 99) ∧
    ∀ (b0 : List Nat) (c : Nat),
      (run id ⟨1, n0, b0⟩ (c :: bytes)).1.message_buffer.length ≤ 99 ∧
      ((run id ⟨1, n0, b0⟩ (c :: bytes)).1.state = 3 →
        (run id ⟨1, n0, b0⟩ (c :: bytes)).1.message_buffer.length < 99) ∧
      ∀ m ∈ (run id ⟨1, n0, b0⟩ (c :: bytes)).2, m.length ≤ 99 := by
  have hok : ∀ s : Int, BufferOk ⟨s, 0, []⟩ := by
    intro s
    exact ⟨by simp, fun _ => by simp⟩
  have h0 : BufferOk ⟨1, n0, []⟩ := ⟨by simp, fun _ => by simp⟩
  have h := run_bufferOk id ⟨1, n0, []⟩ bytes h0
  refine ⟨h.1.1, fun h3 => h.1.2 (Or.inr h3), h.2, ?_⟩
  intro b0 c
  rw [run_cons, step_idle]
  have h1 := run_bufferOk id ⟨if c = 60 then 2 else 1, 0, []⟩ bytes (hok _)
  refine ⟨h1.1.1, fun h3 => h1.1.2 (Or.inr h3), ?_⟩
  intro m hm
  simp only [Option.toList, List.nil_append] at hm
  exact h1.2 m hm

/-- C10 at filter 5 after the bytes `<5@hi`, where the parser is in state 3. -/
theorem buffer_capacity_witness :
    (run 5 ⟨1, 0, []⟩ [60, 53, 64, 104, 105]).1.state = 3 ∧
    (run 5 ⟨1, 0, []⟩ [60, 53, 64, 104, 105]).1.message_buffer.length < 99 :=
  ⟨by decide, (buffer_capacity 5 0 [60, 53, 64, 104, 105]).2.1 (by decide)⟩

/-! ## Raw mode -/

theorem rawLoop_reduceOption (reads : List (Option Nat)) :
    rawLoop reads = reads.reduceOption := by
  induction reads with
  | nil => rfl
  | cons r rest ih =>
    cases r with
    | none => simp [rawLoop, ih, List.reduceOption_cons_of_none]
    | some c => simp [rawLoop, ih, List.reduceOption_cons_of_some]

theorem rawLoop_map_some (bytes : List Nat) : rawLoop (bytes.map some) = bytes := by
  induction bytes with
  | nil => rfl
  | cons c cs ih => simp [rawLoop, ih]

/-- C9: with `id == -1`, the units printed are exactly the bytes read, one
character per byte, in arrival order, whatever the bytes are; reads that return
no byte print nothing. -/
theorem raw_passthrough (n : Int) (message_buffer : List Nat) (bytes : List Nat)
    (reads : List (Option Nat)) :
    decodeLoop (-1) n message_buffer (bytes.map some) = bytes.map Output.char ∧
    decodeLoop (-1) n message_buffer reads = reads.reduceOption.map Output.char ∧
    decodeLoop (-1) n message_buffer [some 97, none, some 98, some 99] =
      [Output.char 97, Output.char 98, Output.char 99] ∧
    decodeLoop (-1) n message_buffer [some 60, some 53, some 64, some 62] =
      [Output.char 60, Output.char 53, Output.char 64, Output.char 62] := by
  refine ⟨?_, ?_, ?_, ?_⟩
  · simp [decodeLoop, rawLoop_map_some]
  · simp [decodeLoop, rawLoop_reduceOption]
  · simp [decodeLoop, rawLoop]
  · simp [decodeLoop, rawLoop]

/-! ## COM port scan -/

theorem descending_cons (hi lo : Int) (h : lo ≤ hi) :
    descending hi lo = hi :: descending (hi - 1) lo := by
  unfold descending
  have hk : (hi - lo + 1).toNat = (hi - 1 - lo + 1).toNat + 1 := by omega
  rw [hk, List.range_succ_eq_map]
  simp only [List.map_cons, List.map_map, Nat.cast_zero, sub_zero]
  congr 1
  apply List.map_congr_left
  intro k _
  simp only [Function.comp, Nat.succ_eq_add_one, Nat.cast_add, Nat.cast_one]
  omega

theorem descending_self (i : Int) : descending i i = [i] := by
  unfold descending
  simp [List.range_succ]

theorem wrap32_pred (n lo : Int) (hlo : -2147483648 < lo) (hn : lo ≤ n)
    (hmax : n ≤ 2147483647) : wrap32 (n - 1) = n - 1 := by
  unfold wrap32
  omega

/-- The scan stops at the greatest device number at which both opens succeed. -/
theorem scanLoop_found (openRead openWrite : Int → HANDLE) (lo i : Int)
    (hmin : -2147483648 < lo) (hlo : lo ≤ i) (hR : openRead i ≠ none)
    (hW : openWrite i ≠ none) :
    ∀ (fuel : Nat) (n : Int) (s : Scan), (n - lo + 1).toNat ≤ fuel → i ≤ n →
      n ≤ 2147483647 →
      (∀ j, i < j → j ≤ n → ¬ (openRead j ≠ none ∧ openWrite j ≠ none)) →
      scanLoop openRead openWrite lo fuel n s =
        some ⟨openRead i, openWrite i, i, s.tried ++ descending n i⟩ := by
  intro fuel
  induction fuel with
  | zero =>
    intro n s hfuel hin _ _
    omega
  | succ fuel ih =>
    intro n s hfuel hin hmax hgt
    have hn : n ≥ lo := by omega
    by_cases hboth : openRead n ≠ none ∧ openWrite n ≠ none
    · have hni : n = i := by
        by_contra hne
        exact hgt n (by omega) (le_refl n) hboth
      subst hni
      simp only [scanLoop, hn, if_true, descending_self]
      rw [if_pos hboth]
    · have hne : i ≠ n := by
        intro h
        subst h
        exact hboth ⟨hR, hW⟩
      have hstep : scanLoop openRead openWrite lo (fuel + 1) n s =
          scanLoop openRead openWrite lo fuel (n - 1)
            ⟨openRead n, openWrite n, s.dev_number, s.tried ++ [n]⟩ := by
        simp only [scanLoop, hn, if_true, hboth, if_false, wrap32_pred n lo hmin hn hmax]
      rw [hstep, ih (n - 1) _ (by omega) (by omega) (by omega)
        (fun j h1 h2 => hgt j h1 (by omega)), descending_cons n i (by omega)]
      simp

/-- When no device number of the range opens for both directions the scan
ends with an invalid handle. -/
theorem scanLoop_none (openRead openWrite : Int → HANDLE) (lo : Int)
    (hmin : -2147483648 < lo) :
    ∀ (fuel : Nat) (n : Int) (s : Scan), (n - lo + 1).toNat ≤ fuel →
      n ≤ 2147483647 →
      (s.hSerialRead = none ∨ s.hSerialWrite = none) →
      (∀ j, lo ≤ j → j ≤ n → ¬ (openRead j ≠ none ∧ openWrite j ≠ none)) →
      ∃ s1, scanLoop openRead openWrite lo fuel n s = some s1 ∧
        (s1.hSerialRead = none ∨ s1.hSerialWrite = none) := by
  intro fuel
  induction fuel with
  | zero =>
    intro n s hfuel _ hs _
    have hn : ¬ (n ≥ lo) := by omega
    exact ⟨s, by simp only [scanLoop, hn, if_false], hs⟩
  | succ fuel ih =>
    intro n s hfuel hmax hs hnone
    by_cases hn : n ≥ lo
    · have hboth := hnone n hn (le_refl n)
      have hstep : scanLoop openRead openWrite lo (fuel + 1) n s =
          scanLoop openRead openWrite lo fuel (n - 1)
            ⟨openRead n, openWrite n, s.dev_number, s.tried ++ [n]⟩ := by
        simp only [scanLoop, hn, if_true, hboth, if_false, wrap32_pred n lo hmin hn hmax]
      rw [hstep]
      apply ih (n - 1) _ (by omega) (by omega)
      · simp only
        by_contra hcon
        push_neg at hcon
        exact hboth hcon
      · exact fun j h1 h2 => hnone j h1 (by omega)
    · exact ⟨s, by simp only [scanLoop, hn, if_false], hs⟩

/-- With an always-true loop condition (lower end the least `int`) and no
port that opens, the scan loop never ends. -/
theorem scanLoop_never_returns (fuel : Nat) :
    ∀ (n : Int) (s : Scan), -2147483648 ≤ n →
      scanLoop (fun _ => none) (fun _ => none) (-2147483648) fuel n s = none := by
  induction fuel with
  | zero =>
    intro n s hn
    have h : n ≥ -2147483648 := hn
    simp only [scanLoop, h, if_true]
  | succ fuel ih =>
    intro n s hn
    have h : n ≥ -2147483648 := hn
    have hw : -2147483648 ≤ wrap32 (n - 1) := by
      unfold wrap32
      omega
    simp only [scanLoop, h, if_true, ne_eq, not_true_eq_false, and_self, if_false]
    exact ih _ _ hw

theorem locate_found (fuel : Nat) (openRead openWrite : Int → HANDLE)
    (scan_max scan_min dev_number hi lo i : Int)
    (hr : scanRange scan_max scan_min dev_number = (hi, lo))
    (hmin : -2147483648 < lo) (hmax : hi ≤ 2147483647) (hfuel : (hi - lo + 1).toNat ≤ fuel)
    (hlo : lo ≤ i) (hhi : i ≤ hi) (hR : openRead i ≠ none) (hW : openWrite i ≠ none)
    (hgt : ∀ j, i < j → j ≤ hi → ¬ (openRead j ≠ none ∧ openWrite j ≠ none)) :
    locate fuel openRead openWrite scan_max scan_min dev_number =
      some (Except.ok ⟨openRead i, openWrite i, i, descending hi i⟩) := by
  unfold locate
  rw [hr]
  simp only
  rw [scanLoop_found openRead openWrite lo i hmin hlo hR hW fuel hi _ hfuel hhi hmax hgt]
  simp [hR, hW]

theorem locate_none (fuel : Nat) (openRead openWrite : Int → HANDLE)
    (scan_max scan_min dev_number hi lo : Int)
    (hr : scanRange scan_max scan_min dev_number = (hi, lo))
    (hmin : -2147483648 < lo) (hmax : hi ≤ 2147483647) (hfuel : (hi - lo + 1).toNat ≤ fuel)
    (hnone : ∀ j, lo ≤ j → j ≤ hi → ¬ (openRead j ≠ none ∧ openWrite j ≠ none)) :
    locate fuel openRead openWrite scan_max scan_min dev_number = some (Except.error 1) := by
  obtain ⟨s1, hs1, hinv⟩ := scanLoop_none openRead openWrite lo hmin fuel hi
    ⟨none, none, dev_number, []⟩ hfuel hmax (Or.inl rfl) hnone
  unfold locate
  rw [hr]
  simp only
  rw [hs1]
  rcases hinv with h | h
  · simp [h]
  · by_cases hr1 : s1.hSerialRead = none <;> simp [hr1, h]

/-- C8, as stated, fails at the explicit device number -2147483648, the least
`int`: the loop condition `n >= scan_min` is then always true and the
decrement wraps round to 2147483647, so the scan leaves the range.  When only
port 2147483647 opens it is selected, although it is not in the range; when no
port opens the loop never ends, so the program does not exit with code 1. -/
theorem scan_leaves_range_at_least_int :
    locate 2 (fun i => if i = 2147483647 then some 1 else none)
        (fun i => if i = 2147483647 then some 2 else none) 30 1 (-2147483648) =
      some (Except.ok ⟨some 1, some 2, 2147483647, [-2147483648, 2147483647]⟩) ∧
    ∀ fuel : Nat, locate fuel (fun _ => none) (fun _ => none) 30 1 (-2147483648) = none := by
  constructor
  · rfl
  · intro fuel
    have hr : scanRange 30 1 (-2147483648) = (-2147483648, -2147483648) := by decide
    unfold locate
    rw [hr]
    simp only
    rw [scanLoop_never_returns fuel (-2147483648) _ (le_refl _)]

/-- C8, amended: the scan range is the single device number `dev_number` when
one other than -1 was given, and `scan_min..scan_max` (1..30) when none or -1
was given.  For every such range of `int` device numbers whose lower end is
above the least `int`, and every assignment of open outcomes, the scan tries
the device numbers downwards from the upper end and selects the greatest one
of the range at which both opens succeed, stopping there (it ends within as
many iterations as the range has device numbers); when no device number of the
range opens for both directions, the program exits with code 1. -/
theorem scan_selects_greatest (fuel : Nat) (openRead openWrite : Int → HANDLE)
    (scan_max scan_min dev_number : Int) :
    (dev_number ≠ -1 → -2147483648 < dev_number → dev_number ≤ 2147483647 → 1 ≤ fuel →
      (openRead dev_number ≠ none → openWrite dev_number ≠ none →
        locate fuel openRead openWrite scan_max scan_min dev_number =
          some (Except.ok ⟨openRead dev_number, openWrite dev_number, dev_number,
            [dev_number]⟩)) ∧
      (¬ (openRead dev_number ≠ none ∧ openWrite dev_number ≠ none) →
        locate fuel openRead openWrite scan_max scan_min dev_number =
          some (Except.error 1))) ∧
    (dev_number = -1 → -2147483648 < scan_min → scan_max ≤ 2147483647 →
      (scan_max - scan_min + 1).toNat ≤ fuel →
      (∀ i, scan_min ≤ i → i ≤ scan_max → openRead i ≠ none → openWrite i ≠ none →
        (∀ j, i < j → j ≤ scan_max → ¬ (openRead j ≠ none ∧ openWrite j ≠ none)) →
        locate fuel openRead openWrite scan_max scan_min dev_number =
          some (Except.ok ⟨openRead i, openWrite i, i, descending scan_max i⟩)) ∧
      ((∀ i, scan_min ≤ i → i ≤ scan_max →
          ¬ (openRead i ≠ none ∧ openWrite i ≠ none)) →
        locate fuel openRead openWrite scan_max scan_min dev_number =
          some (Except.error 1))) := by
  constructor
  · intro hd hmin hmax hfuel
    have hr : scanRange scan_max scan_min dev_number = (dev_number, dev_number) := by
      simp [scanRange, hd]
    have hf : (dev_number - dev_number + 1).toNat ≤ fuel := by
      simpa using hfuel
    constructor
    · intro hR hW
      have h := locate_found fuel openRead openWrite scan_max scan_min dev_number dev_number
        dev_number dev_number hr hmin hmax hf (le_refl _) (le_refl _) hR hW
        (fun j h1 h2 => by omega)
      rw [descending_self] at h
      exact h
    · intro hno
      exact locate_none fuel openRead openWrite scan_max scan_min dev_number dev_number
        dev_number hr hmin hmax hf
        (fun j h1 h2 => by
          have hj : j = dev_number := le_antisymm h2 h1
          rw [hj]
          exact hno)
  · intro hd hmin hmax hfuel
    have hr : scanRange scan_max scan_min dev_number = (scan_max, scan_min) := by
      simp [scanRange, hd]
    constructor
    · intro i hlo hhi hR hW hgt
      exact locate_found fuel openRead openWrite scan_max scan_min dev_number scan_max
        scan_min i hr hmin hmax hfuel hlo hhi hR hW hgt
    · intro hnone
      exact locate_none fuel openRead openWrite scan_max scan_min dev_number scan_max
        scan_min hr hmin hmax hfuel hnone

/-- The amended C8 at the explicit device number 3, which opens for both
directions, and at the range 5..1 where only device 2 opens for both
directions (device 4 opens for reading only, device 3 for writing only):
device 2 is selected after 5, 4, 3 and 2 were tried. -/
theorem scan_selects_greatest_witness :
    locate 1 (fun i => if i = 3 then some 1 else none)
        (fun i => if i = 3 then some 2 else none) 30 1 3 =
      some (Except.ok ⟨some 1, some 2, 3, [3]⟩) ∧
    locate 5 (fun i => if i = 2 ∨ i = 4 then some 1 else none)
        (fun i => if i = 2 ∨ i = 3 then some 2 else none) 5 1 (-1) =
      some (Except.ok ⟨some 1, some 2, 2, [5, 4, 3, 2]⟩) :=
  ⟨((scan_selects_greatest 1 (fun i => if i = 3 then some 1 else none)
      (fun i => if i = 3 then some 2 else none) 30 1 3).1 (by decide) (by decide) (by decide)
      (by decide)).1 (by decide) (by decide),
    ((scan_selects_greatest 5 (fun i => if i = 2 ∨ i = 4 then some 1 else none)
      (fun i => if i = 2 ∨ i = 3 then some 2 else none) 5 1 (-1)).2 (by decide) (by decide)
      (by decide) (by decide)).1 2 (by decide) (by decide) (by decide) (by decide)
      (by
        intro j h1 h2
        have hj : j = 3 ∨ j = 4 ∨ j = 5 := by omega
        rcases hj with rfl | rfl | rfl <;> decide)⟩

/-! ## Link configuration -/

/-- C7 fails on the code: with the default `baudrate` 9600 (and `CBR_19200`
19200) the structure passed to `SetCommState` for the read handle carries 9600
and the one for the write handle carries 19200; for every requested rate the
write side carries `CBR_19200` and the read side the requested rate. -/
theorem write_baud_not_requested (CBR_19200 ONESTOPBIT NOPARITY baudrate : Int)
    (dcbSerialParams dcbSerialParamsWrite : DCB) :
    (configure 19200 ONESTOPBIT NOPARITY 9600 dcbSerialParams dcbSerialParamsWrite).1.BaudRate
      = 9600 ∧
    (configure 19200 ONESTOPBIT NOPARITY 9600 dcbSerialParams dcbSerialParamsWrite).2.BaudRate
      = 19200 ∧
    (configure CBR_19200 ONESTOPBIT NOPARITY baudrate dcbSerialParams
      dcbSerialParamsWrite).1.BaudRate = baudrate % 4294967296 ∧
    (configure CBR_19200 ONESTOPBIT NOPARITY baudrate dcbSerialParams
      dcbSerialParamsWrite).2.BaudRate = CBR_19200 := by
  refine ⟨?_, rfl, rfl, rfl⟩
  show (9600 : Int) % 4294967296 = 9600
  decide

end ComPrinter
